import Mathlib

/-!
Verification of the scan-acquisition engine of
`logic/scanning_magnetometry_logic.py` (qudi-scanning-magnetometry).

The Python logic module is shallowly embedded: analog quantities (positions,
frequencies, counts) are rationals, the multi-channel scan image is a nested
list `rows × cols × channels`, and the asynchronous Qt signal chain
(`sigNextLine → _scan_line → scan_pixel → treat_data → _hpix_end`) is
modelled as a fuel-indexed sequential step function over an explicit state
record, with hardware acquisitions drawn from an oracle trace stored in the
state.  Display-only artifacts (the `scanline` live-plot buffer, `mean_pl`,
remaining-time strings, matplotlib figures) are not modelled: no claim
mentions them and they never feed back into `pl_image` or the control flow.
-/

namespace Magnetometry

/-! ### Generic list helpers -/

/-- Update the element at index `i` of a list with `f`; out-of-range is a
no-op (mirrors writes to a NumPy array at a fixed valid index, used only at
in-range indices by the embedding). -/
def listUpd {α : Type} : List α → Nat → (α → α) → List α
  | [], _, _ => []
  | x :: xs, 0, f => f x :: xs
  | x :: xs, n + 1, f => x :: listUpd xs n f

/-- Map with the element index, starting the count at `i`. -/
def listMapIdxFrom {α β : Type} (f : Nat → α → β) : Nat → List α → List β
  | _, [] => []
  | i, x :: xs => f i x :: listMapIdxFrom f (i + 1) xs

/-- Map with the element index. -/
def listMapIdx {α β : Type} (f : Nat → α → β) (l : List α) : List β :=
  listMapIdxFrom f 0 l

/-- Arithmetic mean of a list (np.mean); the empty list gives `0`
(division by zero in `ℚ`). -/
def listMean (l : List ℚ) : ℚ := l.sum / l.length

/-- Embeds `np.linspace a b n`: `n` evenly spaced points from `a` to `b`
inclusive. -/
def linspace (a b : ℚ) (n : Nat) : List ℚ :=
  (List.range n).map fun (i : ℕ) =>
    if n ≤ 1 then a else a + (i : ℚ) * (b - a) / ((n : ℚ) - 1)

/-- Minimum value of a list of rationals (`0` for the empty list). -/
def listMin : List ℚ → ℚ
  | [] => 0
  | [x] => x
  | x :: y :: t => min x (listMin (y :: t))

/-- Embeds `np.argmin`: index of the first occurrence of the minimum. -/
def idxMin : List ℚ → Nat
  | [] => 0
  | [_] => 0
  | x :: y :: t => if x ≤ listMin (y :: t) then 0 else idxMin (y :: t) + 1

/-- Embeds `np.rint` / Python `round`: round half to even (banker's rounding). -/
def pyrint (q : ℚ) : ℤ :=
  let f := ⌊q⌋
  let frac := q - f
  if frac < 1/2 then f
  else if 1/2 < frac then f + 1
  else if Even f then f else f + 1

/-! ### Measurement modes (`set_meas_mode`, lines 589-623) -/

/-- The three measurement modes of `MagnetometerLogic.meas_mode`. -/
inductive MeasMode
  | quenching
  | isob
  | fullb
deriving DecidableEq

/-- The `image_size` assigned by `set_meas_mode`: number of channels per pixel. -/
def image_size_of : MeasMode → Nat
  | .quenching => 5
  | .isob => 7
  | .fullb => 8

/-- The `scanline_size` assigned by `set_meas_mode`. -/
def scanline_size_of : MeasMode → Nat
  | .quenching => 4
  | .isob => 8
  | .fullb => 10

/-- The `incr` assigned by `set_meas_mode`: cursor increment per hardware call. -/
def incr_of : MeasMode → Nat
  | .quenching => 2
  | .isob => 1
  | .fullb => 1

/-! ### The scan image (`pl_image`) -/

/-- The scan image `pl_image`: rows × cols × channels of rationals. -/
abbrev Image := List (List (List ℚ))

/-- Read channel `ch` of pixel `(r, c)`; out-of-range reads give `0`
(the array is always accessed in range by the embedded code). -/
def getCh (img : Image) (r c ch : Nat) : ℚ :=
  ((img.getD r []).getD c []).getD ch 0

/-- Apply `f` to channel `ch` of pixel `(r, c)`. -/
def updCh (img : Image) (r c ch : Nat) (f : ℚ → ℚ) : Image :=
  listUpd img r fun row => listUpd row c fun cell => listUpd cell ch f

/-- Write `pl_image[r, c, ch] = v`. -/
def setCh (img : Image) (r c ch : Nat) (v : ℚ) : Image :=
  updCh img r c ch fun _ => v

/-- Accumulate `pl_image[r, c, ch] += v`. -/
def addCh (img : Image) (r c ch : Nat) (v : ℚ) : Image :=
  updCh img r c ch fun old => old + v

/-! ### Image initialization (`initialize_image`, lines 531-586) -/

/-- Scan geometry parameters used by `initialize_image`. -/
structure InitParams where
  range : (ℚ × ℚ) × (ℚ × ℚ)
  centerPosition : ℚ × ℚ
  resolution : ℕ × ℕ

/-- Result of `initialize_image`: the image plus the `_X`/`_Y` position
vectors.  The retrace sampling vectors `_return_X`/`_return_Y` and the
`scanline`/`mean_pl` display buffers are not modelled (their contents are
never stored into `pl_image` nor branch the control flow). -/
structure InitImage where
  pl : Image
  xs : List ℚ
  ys : List ℚ
deriving DecidableEq

/-- Embeds `initialize_image`: builds an image centered on the current position,
channel 0 = x grid, channel 1 = y grid, all other channels zero.  Returns
`none` on the `-1` error paths (inverted ranges). -/
def initialize_image (p : InitParams) (imageSize : Nat) : Option InitImage :=
  let hRange := p.range.1.2 - p.range.1.1
  let vRange := p.range.2.2 - p.range.2.1
  let x0 := p.centerPosition.1 - hRange * (1/2)
  let x1 := p.centerPosition.1 + hRange * (1/2)
  let y0 := p.centerPosition.2 - vRange * (1/2)
  let y1 := p.centerPosition.2 + vRange * (1/2)
  if x1 < x0 then none
  else if y1 < y0 then none
  else
    let xs := linspace x0 x1 p.resolution.1
    let ys := linspace y0 y1 p.resolution.2
    let pl : Image := ys.map fun yv => xs.map fun xv =>
      (List.range imageSize).map fun ch =>
        if ch = 0 then xv else if ch = 1 then yv else 0
    some ⟨pl, xs, ys⟩

/-! ### Data treatment (`treat_data`, lines 1114-1231)

`data` is `odmr_raw_data` (or the quenching `scan_line` result): a matrix as
a list of rows.  For quenching, row `i` is `[signal_i, topo_i]` for the two
pixels of the hardware call; for isob/fullb, row 0 holds the PL counts per
frequency and row 1 the topography samples per frequency. -/

/-- Quenching branch of `treat_data`, horizontal scan mode: writes raw topo
(ch 4), corrected topo (ch 2, `+=`), and PL (ch 3) for the two pixels
`(r, c)` and `(r, c+1)`. -/
def treat_data_quenching (img : Image) (topoCorr : List (List ℚ))
    (r c : Nat) (zRange coeff : ℚ) (data : List (List ℚ)) : Image :=
  let t0 := zRange - coeff * ((data.getD 0 []).getD 1 0)
  let t1 := zRange - coeff * ((data.getD 1 []).getD 1 0)
  let img1 := setCh img r c 4 t0
  let img2 := setCh img1 r (c + 1) 4 t1
  let img3 := addCh img2 r c 2 (t0 - (topoCorr.getD r []).getD c 0)
  let img4 := addCh img3 r (c + 1) 2 (t1 - (topoCorr.getD r []).getD (c + 1) 0)
  let img5 := setCh img4 r c 3 ((data.getD 0 []).getD 0 0)
  setCh img5 r (c + 1) 3 ((data.getD 1 []).getD 0 0)

/-- Iso-B branch of `treat_data`: raw topo (ch 6), corrected topo (ch 2,
`+=`), `PLdiff` (ch 3), and the two per-frequency counts (ch 4, ch 5) for
pixel `(r, c)`. -/
def treat_data_isob (img : Image) (topoCorr : List (List ℚ))
    (r c : Nat) (zRange coeff : ℚ) (data : List (List ℚ)) : Image :=
  let topoVal := zRange - coeff * listMean (data.getD 1 [])
  let pl1 := (data.getD 0 []).getD 0 0
  let pl2 := (data.getD 0 []).getD 1 0
  let img1 := setCh img r c 6 topoVal
  let img2 := addCh img1 r c 2 (topoVal - (topoCorr.getD r []).getD c 0)
  let img3 := setCh img2 r c 3 (pl1 - pl2)
  let img4 := setCh img3 r c 4 pl1
  setCh img4 r c 5 pl2

/-! ### Resonance tracking (fullb branch of `treat_data`, lines 1161-1228) -/

/-- The frequency list swept for the current pixel (lines 1162-1166):
`num_steps = int(np.rint((mw_stop - mw_start)/mw_step))`, then
`np.linspace(mw_start, mw_start + num_steps*mw_step, num_steps + 1)`.
NumPy raises on a negative point count, so the negative case (never reached
with `start < stop` and a positive step) is clamped by `Int.toNat`. -/
def freq_list_of (mwStart mwStop mwStep : ℚ) : List ℚ :=
  let numSteps := pyrint ((mwStop - mwStart) / mwStep)
  linspace mwStart (mwStart + (numSteps : ℚ) * mwStep) (numSteps.toNat + 1)

/-- The index list of the off-band re-selection (lines 1208-1209): the
indices whose frequency lies in the closed band `[minF, maxF]`. -/
def reselect_indices (freqList : List ℚ) (minF maxF : ℚ) : List ℕ :=
  (List.range freqList.length).filter fun i =>
    decide (freqList.getD i 0 ≤ maxF ∧ minF ≤ freqList.getD i 0)

/-- The off-band re-selection (lines 1206-1211): restrict to indices whose
frequency lies in `[minF, maxF]` and take the frequency of the first
minimum of the counts restricted to those indices. -/
def reselect_min (freqList counts : List ℚ) (minF maxF : ℚ) : ℚ :=
  let indices := reselect_indices freqList minF maxF
  let esr := indices.map fun i => counts.getD i 0
  freqList.getD (indices.getD (idxMin esr) 0) 0

/-- Dip selection as the source writes it (lines 1202-1211): take the
frequency of the global argmin of the counts; if it is `≤ min_fullb` or
`≥ max_fullb`, re-select inside the band. -/
def select_freq_min (freqList counts : List ℚ) (minF maxF : ℚ) : ℚ :=
  let fm := freqList.getD (idxMin counts) 0
  if fm ≤ minF ∨ maxF ≤ fm then reselect_min freqList counts minF maxF
  else fm

/-- Dip selection as the specification words it: if the dip frequency lies
within the closed band `[minF, maxF]` use it directly, otherwise re-select
the minimum among the in-band samples. -/
def select_freq_min_spec (freqList counts : List ℚ) (minF maxF : ℚ) : ℚ :=
  let fm := freqList.getD (idxMin counts) 0
  if minF ≤ fm ∧ fm ≤ maxF then fm
  else reselect_min freqList counts minF maxF

/-- Window recentering (lines 1214-1215): `mw_start = freq_min - halfSpan`,
`mw_stop = freq_min + halfSpan` with `halfSpan = (freq_list[-1] -
freq_list[0]) / 2`. -/
def track_window (freqList : List ℚ) (freqMin : ℚ) : ℚ × ℚ :=
  let halfSpan := (freqList.getLastD 0 - freqList.headD 0) / 2
  (freqMin - halfSpan, freqMin + halfSpan)

/-- Step-size selection (lines 1221-1224): the source compares the signed
difference `resonance_frequency - freq_min` against the threshold (no
absolute value). -/
def step_select (resonanceFrequency freqMin threshold fineStep coarseStep :
    ℚ) : ℚ :=
  if resonanceFrequency - freqMin < threshold then fineStep else coarseStep

/-- Step-size selection as the specification words it: fine step exactly
when `|resonance_frequency - freq_min| < threshold`. -/
def step_select_spec (resonanceFrequency freqMin threshold fineStep
    coarseStep : ℚ) : ℚ :=
  if |resonanceFrequency - freqMin| < threshold then fineStep else coarseStep

/-- Image writes of the fullb branch of `treat_data` (lines 1175-1199):
raw topo (ch 7), corrected topo (ch 2, `+=`), dip frequency (ch 3), and
the iso-B style `PLdiff`/`PL1`/`PL2` (ch 4, 5, 6) for pixel `(r, c)`.
`dataIsob` is the separate two-frequency read. -/
def treat_data_fullb_image (img : Image) (topoCorr : List (List ℚ))
    (r c : Nat) (zRange coeff : ℚ) (freqList : List ℚ)
    (data dataIsob : List (List ℚ)) : Image :=
  let topoVal := zRange - coeff * listMean (data.getD 1 [])
  let indmin := idxMin (data.getD 0 [])
  let img1 := setCh img r c 7 topoVal
  let img2 := addCh img1 r c 2 (topoVal - (topoCorr.getD r []).getD c 0)
  let img3 := setCh img2 r c 3 (freqList.getD indmin 0)
  let img4 := setCh img3 r c 4
    ((dataIsob.getD 0 []).getD 0 0 - (dataIsob.getD 0 []).getD 1 0)
  let img5 := setCh img4 r c 5 ((dataIsob.getD 0 []).getD 0 0)
  setCh img5 r c 6 ((dataIsob.getD 0 []).getD 1 0)

/-! ### Topography correction (`correct_topo`, lines 1491-1509)

`plane_fit` runs a least-squares fit through SciPy; its numeric output is
treated as an opaque matrix `topoCorr` here.  What `correct_topo` does with
it — subtract it from channel 2 everywhere, then zero the not-yet-visited
region of channel 2 — is embedded exactly. -/

/-- Embeds `correct_topo` for the horizontal scan mode at cursor `(row, col)`:
`pl_image[:,:,2] -= topo_corr`, then
`pl_image[row+1:,:,2] = 0` and `pl_image[row:,col,2] = 0`. -/
def correct_topo (img : Image) (topoCorr : List (List ℚ))
    (row col : Nat) : Image :=
  let sub : Image := listMapIdx (fun r rowv => listMapIdx (fun c cell =>
    listUpd cell 2 fun v => v - (topoCorr.getD r []).getD c 0) rowv) img
  listMapIdx (fun r rowv => listMapIdx (fun c cell =>
    if row + 1 ≤ r ∨ (row ≤ r ∧ c = col) then
      listUpd cell 2 fun _ => 0
    else cell) rowv) sub

/-! ### Scan duration estimate (`compute_scan_duration`, lines 1402-1423) -/

/-- Horizontal (`_hpix`) or vertical (`_vpix`) raster orientation. -/
inductive ScanMode
  | hpix
  | vpix
deriving DecidableEq

/-- Forward-scan time of `compute_scan_duration` (lines 1407-1412). -/
def scan_fwd_time (mode : MeasMode) (res0 res1 : ℕ) (clock : ℚ)
    (lineNumber : ℕ) : ℚ :=
  match mode with
  | .quenching => (res0 : ℚ) * res1 / clock
  | .isob => 2 * (res0 : ℚ) * res1 / clock
  | .fullb => (2 + (lineNumber : ℚ)) * res0 * res1 / clock

/-- Retrace time of `compute_scan_duration` (lines 1414-1419). -/
def scan_bwd_time (scanMode : ScanMode) (res0 res1 : ℕ) (clock rs : ℚ)
    (range : (ℚ × ℚ) × (ℚ × ℚ)) : ℚ :=
  match scanMode with
  | .hpix => (res1 : ℚ) * ((range.1.2 - range.1.1) / rs) / clock
  | .vpix => (res0 : ℚ) * ((range.2.2 - range.2.1) / rs) / clock

/-- Embeds `compute_scan_duration` (line 1421): `1.8 * (fwd + bwd)`.  Only the
numeric `self.duration` is modelled; `format_time` renders it. -/
def compute_scan_duration (mode : MeasMode) (scanMode : ScanMode)
    (res0 res1 : ℕ) (clock rs : ℚ) (range : (ℚ × ℚ) × (ℚ × ℚ))
    (lineNumber : ℕ) : ℚ :=
  (18 / 10) * (scan_fwd_time mode res0 res1 clock lineNumber +
    scan_bwd_time scanMode res0 res1 clock rs range)

/-- Modelled from the spec: `DurationEstimator.estimate`'s per-mode
pixels-per-line multiplier — 1 for Quenching, 2 for IsoB, and
`2 + frequencyPointCount` for FullSweep. -/
def spec_duration_multiplier (mode : MeasMode) (freqPoints : ℕ) : ℚ :=
  match mode with
  | .quenching => 1
  | .isob => 2
  | .fullb => 2 + (freqPoints : ℚ)

/-! ### Parameter setters (lines 419-511)

Each setter embeds as a pure function `state → args → state × emitted
signals × return value`.  The `isinstance` guards of the source are
vacuously true here because the embedded inputs are already numerals. -/

/-- The stored parameters touched by the four guarded setters, plus the
`module_state() == 'locked'` flag. -/
structure LogicParams where
  locked : Bool
  clock_frequency : ℚ
  range : (ℚ × ℚ) × (ℚ × ℚ)
  resolution : ℤ × ℤ
  return_slowness : ℚ

/-- Qt signals emitted by the setters. -/
inductive Sig
  | paramUpdated
  | updateDuration
  | updateRemTime
deriving DecidableEq

/-- Embeds `set_clock_frequency` (lines 419-440): stores the inverse of the given
measurement time and notifies; a locked module leaves everything unchanged
and returns the stored value. -/
def set_clock_frequency (s : LogicParams) (timeClock : ℚ) :
    LogicParams × List Sig × ℚ :=
  if s.locked then (s, [], s.clock_frequency)
  else
    let s' := {s with clock_frequency := 1 / timeClock}
    (s', [.paramUpdated, .updateDuration, .updateRemTime],
      s'.clock_frequency)

/-- Embeds `set_range` (lines 443-461): takes the four scalars
`[xmin, xmax, ymin, ymax]`. -/
def set_range (s : LogicParams) (rangeScan : ℚ × ℚ × ℚ × ℚ) :
    LogicParams × List Sig × ((ℚ × ℚ) × (ℚ × ℚ)) :=
  if s.locked then (s, [], s.range)
  else
    let s' := {s with range := ((rangeScan.1, rangeScan.2.1),
      (rangeScan.2.2.1, rangeScan.2.2.2))}
    (s', [.paramUpdated, .updateDuration, .updateRemTime], s'.range)

/-- Embeds `set_resolution` (lines 464-491): an odd requested resolution on either
axis is decremented by one (the NI card needs at least 2 pixels per
hardware call). -/
def set_resolution (s : LogicParams) (xRes yRes : ℤ) :
    LogicParams × List Sig × (ℤ × ℤ) :=
  if s.locked then (s, [], s.resolution)
  else
    let x := if xRes % 2 = 1 then xRes - 1 else xRes
    let y := if yRes % 2 = 1 then yRes - 1 else yRes
    let s' := {s with resolution := (x, y)}
    (s', [.paramUpdated, .updateDuration, .updateRemTime], s'.resolution)

/-- Embeds `set_return_slowness` (lines 494-511). -/
def set_return_slowness (s : LogicParams) (rs : ℚ) :
    LogicParams × List Sig × ℚ :=
  if s.locked then (s, [], s.return_slowness)
  else
    let s' := {s with return_slowness := rs}
    (s', [.paramUpdated, .updateDuration, .updateRemTime],
      s'.return_slowness)

/-! ### The scan control loop

The Qt signal chain `sigNextLine → _scan_line → (thread) scan_pixel →
sigScanPixelOver → treat_data → sigFinishedDataTreatment →
move_after_scan_pixel → _hpix_end → sigNextLine` is serialized: at most one
hardware call is in flight, every slot runs to completion before the next
queued signal is delivered.  We embed one delivery of `sigNextLine`
(including the whole downstream chain it triggers) as a step function
returning the new state together with the number of `sigNextLine`
emissions it produced, and the event loop as a fuel-indexed runner over the
pending-emission count.  Only the horizontal (`_hpix`) orientation — the
source default `scan_mode = "_hpix"` — is embedded.  Hardware acquisition
results are drawn in order from the oracle list `hw` in the state. -/

/-- State of `MagnetometerLogic` restricted to what the scan loop reads
and writes.  `linePos` is `line_position` as `(fast index, slow index)`.
`selfMw*` are `self.mw_*`; `odmrMw*` are `self._odmr_logic.mw_*`. -/
structure ScanState where
  locked : Bool
  stopRequested : Bool
  measMode : MeasMode
  linePos : Nat × Nat
  currentPosition : ℚ × ℚ
  img : Image
  topoCorr : List (List ℚ)
  xs : List ℚ
  ys : List ℚ
  zRange : ℚ
  coeffTopo : ℚ
  incr : Nat
  selfMwStart : ℚ
  selfMwStop : ℚ
  selfMwStep : ℚ
  mwStepHf : ℚ
  minFullb : ℚ
  maxFullb : ℚ
  threshold : ℚ
  resonanceFrequency : ℚ
  freq1 : ℚ
  freq2 : ℚ
  odmrMwStart : ℚ
  odmrMwStop : ℚ
  odmrMwStep : ℚ
  numberSweeps : Nat
  lineNumber : ℤ
  hw : List (List (List ℚ))

/-- Draw the next hardware response from the oracle (an exhausted oracle
answers with an empty matrix; the theorems always supply enough). -/
def nextHw (s : ScanState) : List (List ℚ) × ScanState :=
  match s.hw with
  | [] => ([], s)
  | m :: rest => (m, {s with hw := rest})

/-- Elementwise matrix sum (`new_counts += ...`). -/
def matAdd (a b : List (List ℚ)) : List (List ℚ) :=
  List.zipWith (fun ra rb => List.zipWith (· + ·) ra rb) a b

/-- Elementwise division by a scalar (`new_counts / self.number_sweeps`). -/
def matDiv (a : List (List ℚ)) (k : ℚ) : List (List ℚ) :=
  a.map (List.map (· / k))

/-- The accumulation loop of `scan_odmr_line` (lines 396-398): `n` further
acquisitions summed onto `acc`. -/
def add_sweeps : Nat → List (List ℚ) → ScanState →
    List (List ℚ) × ScanState
  | 0, acc, s => (acc, s)
  | n + 1, acc, s =>
    let (m, s') := nextHw s
    add_sweeps n (matAdd acc m) s'

/-- Embeds `scan_odmr_line` (lines 383-405): acquire `number_sweeps` count
matrices, sum them, and if entry `[0, 0]` of the sum is the `-1` fault
sentinel set `stopRequested` and return `None` (embedded as `none`);
otherwise return the average.  The microwave-sweep re-arm and ODMR plot
reset done for fullb have no model-visible effect. -/
def scan_odmr_line (s : ScanState) :
    Option (List (List ℚ)) × ScanState :=
  let (m0, s1) := nextHw s
  let (msum, s2) := add_sweeps (s.numberSweeps - 1) m0 s1
  if (msum.getD 0 []).getD 0 0 = -1 then
    (none, {s2 with stopRequested := true})
  else
    (some (matDiv msum (s.numberSweeps : ℚ)), s2)

/-- Outcome of the `scan_pixel` worker thread. -/
inductive PixelOutcome
  /-- `sigScanPixelOver` was emitted with the two data matrices. -/
  | ok (data dataIsob : List (List ℚ))
  /-- `scan_odmr_line` returned `None`: the subsequent use of the missing
  matrix (`emit` of `None` / `len(None[0])`) raises in the worker thread,
  which dies without emitting any signal. -/
  | aborted
  /-- The retry path called `set_sweep_parameters_fullb` with 7 positional
  arguments (line 1277) though its definition takes 8 (line 269): Python
  raises `TypeError`, killing the worker thread before any retry. -/
  | crashed
deriving DecidableEq

/-- Embeds `scan_pixel` (lines 1247-1292). -/
def scan_pixel (s : ScanState) : PixelOutcome × ScanState :=
  match s.measMode with
  | .quenching =>
    -- one `scan_line` call over the two adjacent pixels; its result is
    -- used as-is, with no fault-sentinel check
    let (m, s') := nextHw s
    (.ok m [[0]], s')
  | .isob =>
    match scan_odmr_line s with
    | (none, s') => (.aborted, s')
    | (some d, s') => (.ok d [[0]], s')
  | .fullb =>
    let s1 := {s with
      lineNumber := pyrint ((s.odmrMwStop - s.odmrMwStart) / s.odmrMwStep) + 1}
    match scan_odmr_line s1 with
    | (none, s2) => (.aborted, s2)
    | (some d, s2) =>
      if (d.getD 0 []).length = 2 then (.crashed, s2)
      else
        -- the iso-B style two-frequency read
        let s3 := {s2 with lineNumber := 2, odmrMwStart := s2.freq1,
                           odmrMwStop := s2.freq2,
                           odmrMwStep := s2.freq2 - s2.freq1}
        match scan_odmr_line s3 with
        | (none, s4) =>
          let s5 := {s4 with odmrMwStart := s4.selfMwStart,
                             odmrMwStep := s4.selfMwStep,
                             odmrMwStop := s4.selfMwStop}
          (.aborted, s5)
        | (some di, s4) =>
          let s5 := {s4 with odmrMwStart := s4.selfMwStart,
                             odmrMwStep := s4.selfMwStep,
                             odmrMwStop := s4.selfMwStop}
          (.ok d di, s5)

/-- Embeds `treat_data` (lines 1114-1231) as a state transformer; the display
buffers (`esr_line`, `scanline`) and the temporary ESR export file are not
modelled. -/
def treat_data_step (s : ScanState) (data dataIsob : List (List ℚ)) :
    ScanState :=
  let r := s.linePos.2
  let c := s.linePos.1
  match s.measMode with
  | .quenching =>
    {s with img :=
      treat_data_quenching s.img s.topoCorr r c s.zRange s.coeffTopo data}
  | .isob =>
    {s with img :=
      treat_data_isob s.img s.topoCorr r c s.zRange s.coeffTopo data}
  | .fullb =>
    let freqList := freq_list_of s.selfMwStart s.selfMwStop s.selfMwStep
    let img' := treat_data_fullb_image s.img s.topoCorr r c s.zRange
      s.coeffTopo freqList data dataIsob
    let fm := select_freq_min freqList (data.getD 0 []) s.minFullb
      s.maxFullb
    let w := track_window freqList fm
    let newStep := step_select s.resonanceFrequency fm s.threshold
      s.selfMwStep s.mwStepHf
    {s with img := img', selfMwStart := w.1, selfMwStop := w.2,
            odmrMwStart := w.1, odmrMwStop := w.2, odmrMwStep := newStep,
            lineNumber := pyrint ((w.2 - w.1) / newStep) + 1}

/-- Embeds `shift_indices` (lines 514-528). -/
def shift_indices (s : ScanState) : ScanState :=
  let p1 := if s.linePos.2 = s.img.length then s.linePos.2 - 1
    else s.linePos.2
  let p0 := if s.linePos.1 = (s.img.getD 0 []).length then s.linePos.1 - 1
    else s.linePos.1
  {s with linePos := (p0, p1),
          currentPosition := (getCh s.img p1 p0 0, getCh s.img p1 p0 1)}

/-- Embeds `stop_scanning` (lines 967-977): request the stop when locked, then
shift the indices.  The `sigStopScan` notification has no model-visible
effect. -/
def stop_scanning (s : ScanState) (_final : Bool) : ScanState :=
  let s1 := if s.locked then {s with stopRequested := true} else s
  shift_indices s1

/-- Embeds `reset_position` (lines 892-938): only acts at cursor `(0, 0)`.
Returns `(code, emissions)`: when the start-line scan shows a `-1` sample,
`stopRequested` is set and one `sigNextLine` is emitted with code 0; when
the current position already equals the image corner, the local
`start_line` is never bound and the resulting `NameError` is caught,
giving code `-1`. -/
def reset_position (s : ScanState) : (Int × Nat) × ScanState :=
  if s.linePos = (0, 0) then
    if (s.currentPosition.1, s.currentPosition.2) ≠
        (getCh s.img 0 0 0, getCh s.img 0 0 1) then
      let (m, s') := nextHw s
      if m.any (fun row => row.any fun v => decide (v = -1)) then
        ((0, 1), {s' with stopRequested := true})
      else ((0, 0), s')
    else ((-1, 0), s)
  else ((0, 0), s)

/-- Embeds `move_hpix` (lines 1065-1083): reposition to the current cursor; the
analog-out write is assumed to succeed. -/
def move_hpix (s : ScanState) : ScanState :=
  {s with currentPosition := (getCh s.img s.linePos.2 s.linePos.1 0,
    getCh s.img s.linePos.2 s.linePos.1 1)}

def hpix_end (s : ScanState) : ScanState × Nat :=
  let p0 := s.linePos.1 + s.incr
  if p0 ≥ s.xs.length then
    let p1 := s.linePos.2 + 1
    if p1 ≥ s.ys.length then
      let s1 := stop_scanning {s with linePos := (0, p1)} true
      ({s1 with linePos := (0, 0)}, 1)
    else
      let s1 := {s with linePos := (0, p1)}
      let (_, s2) := nextHw s1
      (s2, 1)
  else
    ({s with linePos := (p0, s.linePos.2)}, 1)

/-- One delivery of `sigNextLine`: `_scan_line` (lines 980-1024) plus the
whole downstream worker chain it triggers.  Returns the new state and the
number of `sigNextLine` emissions produced.  On `stopRequested` the
scanner is killed (`kill_scanner` unlocks the module) and the flag is
cleared.  A `reset_position` failure calls `stop_scanning()` and emits,
but — as in the source, which has no `return` there — still falls through
to the move and the pixel scan. -/
def scan_line_step (s : ScanState) : ScanState × Nat :=
  if s.stopRequested then
    ({s with locked := false, stopRequested := false}, 0)
  else
    let ((code, e1), s1) := reset_position s
    let (s2, e2) :=
      if code < 0 then (stop_scanning s1 false, 1) else (s1, 0)
    let s3 := move_hpix s2
    match scan_pixel s3 with
    | (.ok d di, s4) =>
      let s5 := treat_data_step s4 d di
      let (s6, e3) := hpix_end s5
      (s6, e1 + e2 + e3)
    | (_, s4) => (s4, e1 + e2)

/-- The Qt event loop restricted to `sigNextLine`: process pending
deliveries until none remain (the chain has stalled or the scan ended) or
the fuel runs out. -/
def run_scan : Nat → ScanState → Nat → ScanState
  | 0, s, _ => s
  | _ + 1, s, 0 => s
  | fuel + 1, s, pending + 1 =>
    let (s', e) := scan_line_step s
    run_scan fuel s' (pending + e)

/-- What `set_meas_mode` (lines 589-623) establishes: the per-mode sizes
and cursor increment, and the reinitialized image.  The fullb-only
reallocation of the `odmr_raw_data`/`esr_line` acquisition buffers is not
modelled (they are overwritten on every pixel). -/
structure MeasSetup where
  imageSize : ℕ
  scanlineSize : ℕ
  incr : ℕ
  init : Option InitImage

/-- Embeds `set_meas_mode`: select the per-mode sizes and increment, then
`initialize_image(image_size, scanline_size)`. -/
def set_meas_mode (mode : MeasMode) (p : InitParams) : MeasSetup :=
  { imageSize := image_size_of mode, scanlineSize := scanline_size_of mode,
    incr := incr_of mode,
    init := initialize_image p (image_size_of mode) }

/-! ### Auxiliary definitions used by the theorems -/

/-- Well-formedness of an image: `rows × cols × chans`, rectangular. -/
def ImageWF (img : Image) (rows cols chans : Nat) : Prop :=
  img.length = rows ∧ ∀ r, r < rows →
    (img.getD r []).length = cols ∧ ∀ c, c < cols →
      ((img.getD r []).getD c []).length = chans

/-- Modelled from the spec: `DurationEstimator.estimate` — forward time
`multiplier(mode) × rows × cols / clockFrequency`, retrace time
`lineCount × (axisRange / returnSlowness) / clockFrequency`, total
`1.8 × (forward + retrace)`. -/
def spec_scan_duration (mode : MeasMode) (scanMode : ScanMode)
    (res0 res1 : ℕ) (clock rs : ℚ) (range : (ℚ × ℚ) × (ℚ × ℚ))
    (freqPoints : ℕ) : ℚ :=
  let fwd := spec_duration_multiplier mode freqPoints * res0 * res1 / clock
  let lineCount : ℚ := match scanMode with | .hpix => res1 | .vpix => res0
  let axisRange := match scanMode with
    | .hpix => range.1.2 - range.1.1
    | .vpix => range.2.2 - range.2.1
  18 / 10 * (fwd + lineCount * (axisRange / rs) / clock)

/-- A scan state with placeholder values, specialized by the concrete
scenarios below. -/
def base_state : ScanState :=
  { locked := true, stopRequested := false, measMode := .isob,
    linePos := (0, 0), currentPosition := (0, 0), img := [], topoCorr := [],
    xs := [], ys := [], zRange := 0, coeffTopo := 0, incr := 1,
    selfMwStart := 0, selfMwStop := 0, selfMwStep := 0, mwStepHf := 0,
    minFullb := 0, maxFullb := 0, threshold := 0, resonanceFrequency := 0,
    freq1 := 0, freq2 := 0, odmrMwStart := 0, odmrMwStop := 0,
    odmrMwStep := 0, numberSweeps := 1, lineNumber := 2, hw := [] }

/-- The freshly initialized 2×2×5 quenching image over the position grids
`_X = _Y = [0, 1]` (channels 0 and 1 hold the positions, all data
channels zero). -/
def c1_image : Image :=
  [[[0, 0, 0, 0, 0], [1, 0, 0, 0, 0]],
   [[0, 1, 0, 0, 0], [1, 1, 0, 0, 0]]]

/-- A freshly started 2×2 quenching scan whose hardware oracle answers:
a clean start line, then a pixel-pair acquisition whose sample `[0, 0]`
is the `-1` fault sentinel, then a clean retrace, then a clean second
pixel pair. -/
def c1_state : ScanState :=
  { base_state with
    measMode := .quenching, incr := 2, currentPosition := (5, 5),
    img := c1_image, topoCorr := [[0, 0], [0, 0]],
    xs := [0, 1], ys := [0, 1], zRange := 3, coeffTopo := 0,
    hw := [ [[0, 0], [0, 0]],
            [[-1, 2], [3, 4]],
            [[0, 0], [0, 0]],
            [[5, 6], [7, 8]] ] }

/-- The scan loop run to quiescence on that scenario. -/
def c1_final : ScanState := run_scan 10 c1_state 1

/-- An iso-B scan at cursor `(1, 0)` whose next acquisition answers the
`-1` fault sentinel at sample `[0, 0]`. -/
def c1a_state : ScanState :=
  { base_state with linePos := (1, 0), hw := [[[-1]]] }

/-- A quenching scan at cursor `(1, 0)` of a 4-wide line whose next
`scan_line` result carries the `-1` sentinel at sample `[0, 0]`. -/
def c1b_state : ScanState :=
  { base_state with
    measMode := .quenching, incr := 2, linePos := (1, 0),
    xs := [0, 1, 2, 3], hw := [[[-1, 6], [7, 8]]] }

/-- A FullSweep scan at cursor `(1, 0)` whose next sweep acquisition
answers the `-1` fault sentinel at sample `[0, 0]`. -/
def c1c_state : ScanState :=
  { base_state with
    measMode := .fullb, linePos := (1, 0), hw := [[[-1]]] }

/-- A FullSweep pixel whose sweep acquisition returns a 2-column matrix
(the size-mismatch symptom the retry path tests for). -/
def c2a_state : ScanState :=
  { base_state with measMode := .fullb, hw := [[[4, 5], [6, 7]]] }

/-- A FullSweep pixel whose sweep acquisition returns 3 frequency samples
(a size mismatch the code does not test for), followed by a clean
two-frequency read. -/
def c2b_state : ScanState :=
  { base_state with
    measMode := .fullb,
    hw := [[[4, 5, 6], [7, 8, 9]], [[1, 2], [3, 4]]] }

/-! ### Supporting lemmas -/

theorem listUpd_length {α : Type} (l : List α) (i : Nat) (f : α → α) :
    (listUpd l i f).length = l.length := by
  induction l generalizing i with
  | nil => rfl
  | cons x xs ih =>
    cases i with
    | zero => rfl
    | succ n => simp [listUpd, ih]

theorem getD_listUpd_ne {α : Type} (l : List α) (i j : Nat) (f : α → α)
    (d : α) (h : i ≠ j) : (listUpd l i f).getD j d = l.getD j d := by
  induction l generalizing i j with
  | nil => rfl
  | cons x xs ih =>
    cases i with
    | zero =>
      cases j with
      | zero => exact absurd rfl h
      | succ m => rfl
    | succ n =>
      cases j with
      | zero => rfl
      | succ m =>
        simp only [listUpd, List.getD_cons_succ]
        exact ih n m (fun hc => h (by rw [hc]))

theorem listUpd_of_length_le {α : Type} (l : List α) (i : Nat) (f : α → α)
    (h : l.length ≤ i) : listUpd l i f = l := by
  induction l generalizing i with
  | nil => rfl
  | cons x xs ih =>
    cases i with
    | zero => simp at h
    | succ n =>
      simp only [listUpd]
      rw [ih n (by simpa using h)]

theorem getD_listUpd_eq {α : Type} (l : List α) (i : Nat) (f : α → α)
    (d : α) (h : i < l.length) :
    (listUpd l i f).getD i d = f (l.getD i d) := by
  induction l generalizing i with
  | nil => simp at h
  | cons x xs ih =>
    cases i with
    | zero => rfl
    | succ n =>
      simp only [listUpd, List.getD_cons_succ]
      exact ih n (by simpa using h)

theorem listMapIdxFrom_length {α β : Type} (f : Nat → α → β) (i : Nat)
    (l : List α) : (listMapIdxFrom f i l).length = l.length := by
  induction l generalizing i with
  | nil => rfl
  | cons x xs ih => simp [listMapIdxFrom, ih]

theorem getD_listMapIdxFrom_of_lt {α β : Type} (f : Nat → α → β) (i : Nat)
    (l : List α) (j : Nat) (d : β) (dd : α) (h : j < l.length) :
    (listMapIdxFrom f i l).getD j d = f (i + j) (l.getD j dd) := by
  induction l generalizing i j with
  | nil => simp at h
  | cons x xs ih =>
    cases j with
    | zero => rfl
    | succ m =>
      simp only [listMapIdxFrom, List.getD_cons_succ]
      rw [ih (i + 1) m (by simpa using h)]
      congr 1
      omega

theorem getD_listMapIdx_of_lt {α β : Type} (f : Nat → α → β) (l : List α)
    (j : Nat) (d : β) (dd : α) (h : j < l.length) :
    (listMapIdx f l).getD j d = f j (l.getD j dd) := by
  unfold listMapIdx
  rw [getD_listMapIdxFrom_of_lt f 0 l j d dd h]
  simp

theorem linspace_length (a b : ℚ) (n : Nat) : (linspace a b n).length = n := by
  unfold linspace
  rw [List.length_map, List.length_range]

theorem listMin_cons_cons (x y : ℚ) (t : List ℚ) :
    listMin (x :: y :: t) = min x (listMin (y :: t)) := rfl

theorem listMin_le_mem (l : List ℚ) (x : ℚ) (hx : x ∈ l) : listMin l ≤ x := by
  induction l with
  | nil => simp at hx
  | cons a t ih =>
    cases t with
    | nil =>
      simp only [List.mem_singleton] at hx
      simp [listMin, hx]
    | cons b t' =>
      rw [listMin_cons_cons]
      rcases List.mem_cons.mp hx with h | h
      · subst h; exact min_le_left _ _
      · exact le_trans (min_le_right _ _) (ih h)

theorem listMin_mem (l : List ℚ) (h : l ≠ []) : listMin l ∈ l := by
  induction l with
  | nil => exact absurd rfl h
  | cons a t ih =>
    cases t with
    | nil => simp [listMin]
    | cons b t' =>
      rw [listMin_cons_cons]
      rcases le_total a (listMin (b :: t')) with hle | hle
      · rw [min_eq_left hle]; exact List.mem_cons_self _ _
      · rw [min_eq_right hle]
        exact List.mem_cons_of_mem _ (ih (by simp))

theorem idxMin_lt_length (l : List ℚ) (h : l ≠ []) : idxMin l < l.length := by
  induction l with
  | nil => exact absurd rfl h
  | cons a t ih =>
    cases t with
    | nil => simp [idxMin]
    | cons b t' =>
      show (if a ≤ listMin (b :: t') then 0 else idxMin (b :: t') + 1) <
        (a :: b :: t').length
      by_cases hc : a ≤ listMin (b :: t')
      · simp [hc]
      · rw [if_neg hc]
        have := ih (by simp)
        simpa [Nat.succ_lt_succ_iff] using this

theorem getD_idxMin (l : List ℚ) (h : l ≠ []) (d : ℚ) :
    l.getD (idxMin l) d = listMin l := by
  induction l with
  | nil => exact absurd rfl h
  | cons a t ih =>
    cases t with
    | nil => simp [idxMin, listMin]
    | cons b t' =>
      show (a :: b :: t').getD
        (if a ≤ listMin (b :: t') then 0 else idxMin (b :: t') + 1) d =
        listMin (a :: b :: t')
      rw [listMin_cons_cons]
      by_cases hc : a ≤ listMin (b :: t')
      · rw [if_pos hc, min_eq_left hc]; rfl
      · rw [if_neg hc, min_eq_right (le_of_not_le hc)]
        simpa using ih (by simp)

theorem lt_getD_of_lt_idxMin (l : List ℚ) (d : ℚ) (j : Nat)
    (hj : j < idxMin l) : listMin l < l.getD j d := by
  induction l generalizing j with
  | nil => simp [idxMin] at hj
  | cons a t ih =>
    cases t with
    | nil => simp [idxMin] at hj
    | cons b t' =>
      have hsplit : idxMin (a :: b :: t') =
          if a ≤ listMin (b :: t') then 0 else idxMin (b :: t') + 1 := rfl
      rw [hsplit] at hj
      by_cases hc : a ≤ listMin (b :: t')
      · rw [if_pos hc] at hj; simp at hj
      · rw [if_neg hc] at hj
        rw [listMin_cons_cons, min_eq_right (le_of_not_le hc)]
        cases j with
        | zero => exact lt_of_not_le hc
        | succ m =>
          simp only [List.getD_cons_succ]
          exact ih m (Nat.lt_of_succ_lt_succ hj)

/-- Characterization of `idxMin`: a position holding the minimum, with all
earlier positions strictly larger, is the argmin. -/
theorem idxMin_eq_of (l : List ℚ) (p : Nat) (hp : p < l.length)
    (hval : l.getD p 0 = listMin l)
    (hbefore : ∀ j, j < p → listMin l < l.getD j 0) : idxMin l = p := by
  induction l generalizing p with
  | nil => simp at hp
  | cons a t ih =>
    cases t with
    | nil =>
      cases p with
      | zero => rfl
      | succ m => simp at hp
    | cons b t' =>
      have hsplit : idxMin (a :: b :: t') =
          if a ≤ listMin (b :: t') then 0 else idxMin (b :: t') + 1 := rfl
      rw [listMin_cons_cons] at hval hbefore
      cases p with
      | zero =>
        rw [hsplit, if_pos]
        simp only [List.getD_cons_zero] at hval
        rw [hval]
        exact min_le_right _ _
      | succ m =>
        have h0 := hbefore 0 (Nat.succ_pos m)
        simp only [List.getD_cons_zero] at h0
        have hlt : listMin (b :: t') < a := by
          by_contra hcon
          push_neg at hcon
          rw [min_eq_left hcon] at h0
          exact lt_irrefl a h0
        have hmin : min a (listMin (b :: t')) = listMin (b :: t') :=
          min_eq_right (le_of_lt hlt)
        rw [hsplit, if_neg (not_le_of_lt hlt)]
        congr 1
        apply ih
        · simpa using hp
        · rw [hmin] at hval; simpa using hval
        · intro j hj
          have := hbefore (j + 1) (Nat.succ_lt_succ hj)
          rw [hmin] at this
          simpa using this

theorem getCh_updCh_of_ch_ne (img : Image) (r c ch : Nat) (f : ℚ → ℚ)
    (r' c' ch' : Nat) (h : ch ≠ ch') :
    getCh (updCh img r c ch f) r' c' ch' = getCh img r' c' ch' := by
  unfold getCh updCh
  by_cases hr : r = r'
  · subst hr
    by_cases hrlen : r < img.length
    · rw [getD_listUpd_eq _ _ _ _ hrlen]
      by_cases hc : c = c'
      · subst hc
        by_cases hclen : c < (img.getD r []).length
        · rw [getD_listUpd_eq _ _ _ _ hclen]
          exact getD_listUpd_ne _ _ _ _ _ h
        · rw [listUpd_of_length_le _ _ _ (le_of_not_lt hclen)]
      · rw [getD_listUpd_ne _ _ _ _ _ hc]
    · rw [listUpd_of_length_le _ _ _ (le_of_not_lt hrlen)]
  · rw [getD_listUpd_ne _ _ _ _ _ hr]

theorem getCh_updCh_eq (img : Image) (r c ch : Nat) (f : ℚ → ℚ)
    (hr : r < img.length) (hc : c < (img.getD r []).length)
    (hch : ch < ((img.getD r []).getD c []).length) :
    getCh (updCh img r c ch f) r c ch = f (getCh img r c ch) := by
  unfold getCh updCh
  rw [getD_listUpd_eq _ _ _ _ hr, getD_listUpd_eq _ _ _ _ hc,
    getD_listUpd_eq _ _ _ _ hch]

theorem getCh_updCh_of_pos_ne (img : Image) (r c ch : Nat) (f : ℚ → ℚ)
    (r' c' ch' : Nat) (h : ¬(r = r' ∧ c = c')) :
    getCh (updCh img r c ch f) r' c' ch' = getCh img r' c' ch' := by
  unfold getCh updCh
  by_cases hr : r = r'
  · subst hr
    have hc : c ≠ c' := fun hcc => h ⟨rfl, hcc⟩
    by_cases hrlen : r < img.length
    · rw [getD_listUpd_eq _ _ _ _ hrlen, getD_listUpd_ne _ _ _ _ _ hc]
    · rw [listUpd_of_length_le _ _ _ (le_of_not_lt hrlen)]
  · rw [getD_listUpd_ne _ _ _ _ _ hr]

theorem getD_map_of_lt {α β : Type} (l : List α) (f : α → β) (i : Nat)
    (d : β) (dd : α) (h : i < l.length) :
    (l.map f).getD i d = f (l.getD i dd) := by
  rw [List.getD_eq_getElem _ _ (by simpa using h), List.getElem_map,
    List.getD_eq_getElem _ _ h]

/-- Shape and contents of the freshly initialized image. -/
theorem initialize_image_getCh (p : InitParams) (imageSize : Nat)
    (ii : InitImage) (hinit : initialize_image p imageSize = some ii)
    (r c ch : Nat) (hr : r < ii.ys.length) (hc : c < ii.xs.length)
    (hch : ch < imageSize) :
    getCh ii.pl r c ch =
      if ch = 0 then ii.xs.getD c 0
      else if ch = 1 then ii.ys.getD r 0 else 0 := by
  unfold initialize_image at hinit
  by_cases h1 : p.centerPosition.1 + (p.range.1.2 - p.range.1.1) * (1/2) <
      p.centerPosition.1 - (p.range.1.2 - p.range.1.1) * (1/2)
  · simp only [h1, if_true] at hinit
    exact absurd hinit (by simp)
  · by_cases h2 : p.centerPosition.2 + (p.range.2.2 - p.range.2.1) * (1/2) <
        p.centerPosition.2 - (p.range.2.2 - p.range.2.1) * (1/2)
    · simp only [h1, h2, if_false, if_true] at hinit
      exact absurd hinit (by simp)
    · simp only [h1, h2, if_false] at hinit
      rw [Option.some_inj] at hinit
      subst hinit
      unfold getCh
      dsimp only at hr hc ⊢
      rw [getD_map_of_lt _ _ _ _ 0 hr, getD_map_of_lt _ _ _ _ 0 hc,
        getD_map_of_lt _ _ _ _ 0 (by simpa using hch)]
      have hrange : (List.range imageSize).getD ch 0 = ch := by
        rw [List.getD_eq_getElem _ _ (by simpa using hch), List.getElem_range]
      rw [hrange]

theorem getD_mem {α : Type} (l : List α) (i : Nat) (d : α)
    (h : i < l.length) : l.getD i d ∈ l := by
  rw [List.getD_eq_getElem _ _ h]
  exact List.getElem_mem h

theorem getD_eq_get {α : Type} (l : List α) (i : Nat) (d : α)
    (h : i < l.length) : l.getD i d = l.get ⟨i, h⟩ := by
  rw [List.getD_eq_getElem _ _ h]
  simp

theorem listMapIdx_length {α β : Type} (f : Nat → α → β) (l : List α) :
    (listMapIdx f l).length = l.length := by
  unfold listMapIdx
  exact listMapIdxFrom_length f 0 l

/-- A cell-wise indexed transformation that fixes channel `k` of every
cell leaves `getCh · · k` unchanged everywhere. -/
theorem getCh_cell_transform (g : ℕ → ℕ → List ℚ → List ℚ) (img : Image)
    (r c k : Nat)
    (hg : ∀ rr cc cell, (g rr cc cell).getD k 0 = cell.getD k 0) :
    getCh (listMapIdx (fun rr row =>
      listMapIdx (fun cc cell => g rr cc cell) row) img) r c k =
      getCh img r c k := by
  unfold getCh
  by_cases hr : r < img.length
  · rw [getD_listMapIdx_of_lt _ _ _ _ [] hr]
    by_cases hc : c < (img.getD r []).length
    · rw [getD_listMapIdx_of_lt _ _ _ _ [] hc]
      exact hg r c _
    · have h1 : (listMapIdx (fun cc cell => g r cc cell)
          (img.getD r [])).getD c ([] : List ℚ) = [] :=
        List.getD_eq_default _ _ (by rw [listMapIdx_length]; omega)
      have h2 : (img.getD r []).getD c ([] : List ℚ) = [] :=
        List.getD_eq_default _ _ (by omega)
      rw [h1, h2]
  · have h1 : (listMapIdx (fun rr row =>
        listMapIdx (fun cc cell => g rr cc cell) row) img).getD r
          ([] : List (List ℚ)) = [] :=
      List.getD_eq_default _ _ (by rw [listMapIdx_length]; omega)
    have h2 : img.getD r ([] : List (List ℚ)) = [] :=
      List.getD_eq_default _ _ (by omega)
    rw [h1, h2]

theorem imageWF_updCh (img : Image) (rows cols chans r c ch : Nat)
    (f : ℚ → ℚ) (h : ImageWF img rows cols chans) :
    ImageWF (updCh img r c ch f) rows cols chans := by
  obtain ⟨h1, h2⟩ := h
  unfold updCh
  refine ⟨by rw [listUpd_length]; exact h1, ?_⟩
  intro r' hr'
  by_cases hr : r = r'
  · subst hr
    by_cases hlen : r < img.length
    · rw [getD_listUpd_eq _ _ _ _ hlen]
      refine ⟨by rw [listUpd_length]; exact (h2 r hr').1, ?_⟩
      intro c' hc'
      by_cases hc : c = c'
      · subst hc
        by_cases hclen : c < (img.getD r []).length
        · rw [getD_listUpd_eq _ _ _ _ hclen, listUpd_length]
          exact (h2 r hr').2 c hc'
        · rw [listUpd_of_length_le _ _ _ (le_of_not_lt hclen)]
          exact (h2 r hr').2 c hc'
      · rw [getD_listUpd_ne _ _ _ _ _ hc]
        exact (h2 r hr').2 c' hc'
    · rw [listUpd_of_length_le _ _ _ (le_of_not_lt hlen)]
      exact h2 r hr'
  · rw [getD_listUpd_ne _ _ _ _ _ hr]
    exact h2 r' hr'

theorem getCh_updCh_wf (img : Image) (rows cols chans r c ch : Nat)
    (f : ℚ → ℚ) (h : ImageWF img rows cols chans) (hr : r < rows)
    (hc : c < cols) (hch : ch < chans) :
    getCh (updCh img r c ch f) r c ch = f (getCh img r c ch) := by
  apply getCh_updCh_eq
  · rw [h.1]; exact hr
  · rw [(h.2 r (by rw [← h.1] at hr; rwa [h.1] at hr)).1]; exact hc
  · rw [(h.2 r hr).2 c hc]; exact hch

/-- In-band re-selection at the global argmin returns the argmin frequency
itself: the global minimum lies in the candidate set, every earlier
candidate is strictly larger, and `np.argmin` takes the first
occurrence. -/
theorem reselect_at_argmin (freqList counts : List ℚ) (minF maxF : ℚ)
    (hne : counts ≠ []) (hlen : counts.length = freqList.length)
    (hlow : minF ≤ freqList.getD (idxMin counts) 0)
    (hhigh : freqList.getD (idxMin counts) 0 ≤ maxF) :
    reselect_min freqList counts minF maxF =
      freqList.getD (idxMin counts) 0 := by
  have hkc : idxMin counts < counts.length := idxMin_lt_length counts hne
  have hkf : idxMin counts < freqList.length := by omega
  have hkmem : idxMin counts ∈ reselect_indices freqList minF maxF := by
    refine List.mem_filter.mpr ⟨List.mem_range.mpr hkf, ?_⟩
    simp only [decide_eq_true_eq]
    exact ⟨hhigh, hlow⟩
  have hplen : (reselect_indices freqList minF maxF).indexOf
      (idxMin counts) < (reselect_indices freqList minF maxF).length :=
    List.indexOf_lt_length.mpr hkmem
  set idx := reselect_indices freqList minF maxF with hidxdef
  set p := idx.indexOf (idxMin counts) with hpdef
  have hpget : idx.get ⟨p, hplen⟩ = idxMin counts := List.indexOf_get hplen
  have hesrlen : (idx.map fun i => counts.getD i 0).length = idx.length :=
    List.length_map _ _
  have hplen' : p < (idx.map fun i => counts.getD i 0).length := by omega
  have hidxlt : ∀ i ∈ idx, i < counts.length := by
    intro i hi
    rw [hidxdef] at hi
    have := (List.mem_filter.mp hi).1
    rw [List.mem_range] at this
    omega
  have hesrge : ∀ x ∈ idx.map fun i => counts.getD i 0,
      listMin counts ≤ x := by
    intro x hx
    obtain ⟨i, hi, hix⟩ := List.mem_map.mp hx
    rw [← hix]
    exact listMin_le_mem counts _ (getD_mem counts i 0 (hidxlt i hi))
  have hesrp : (idx.map fun i => counts.getD i 0).getD p 0 =
      listMin counts := by
    rw [getD_map_of_lt _ _ _ _ 0 hplen, getD_eq_get idx p 0 hplen, hpget]
    exact getD_idxMin counts hne 0
  have hesrne : (idx.map fun i => counts.getD i 0) ≠ [] := by
    intro hcon
    rw [hcon] at hplen'
    simp at hplen'
  have hminesr : listMin (idx.map fun i => counts.getD i 0) =
      listMin counts := by
    apply le_antisymm
    · have := listMin_le_mem _ _
        (getD_mem (idx.map fun i => counts.getD i 0) p 0 hplen')
      rwa [hesrp] at this
    · exact hesrge _ (listMin_mem _ hesrne)
  have hpair : idx.Pairwise (· < ·) := by
    rw [hidxdef]
    exact List.Pairwise.filter _ (List.pairwise_lt_range _)
  have hbefore : ∀ j, j < p →
      listMin (idx.map fun i => counts.getD i 0) <
        (idx.map fun i => counts.getD i 0).getD j 0 := by
    intro j hj
    have hjlen : j < idx.length := by omega
    rw [getD_map_of_lt _ _ _ _ 0 hjlen, getD_eq_get idx j 0 hjlen, hminesr]
    have hlt : idx.get ⟨j, hjlen⟩ < idxMin counts := by
      have := List.pairwise_iff_get.mp hpair ⟨j, hjlen⟩ ⟨p, hplen⟩
        (Fin.mk_lt_mk.mpr hj)
      rwa [hpget] at this
    exact lt_getD_of_lt_idxMin counts 0 _ hlt
  have hidxesr : idxMin (idx.map fun i => counts.getD i 0) = p :=
    idxMin_eq_of _ p hplen' (hesrp.trans hminesr.symm) hbefore
  show freqList.getD (idx.getD (idxMin
    (idx.map fun i => counts.getD i 0)) 0) 0 = _
  rw [hidxesr, getD_eq_get idx p 0 hplen, hpget]

/-- The source's dip selection (strict-interior test, lines 1206-1211)
computes the same frequency as the specification's closed-interval
formulation: on the boundary the re-selection recovers the global argmin's
frequency. -/
theorem select_freq_min_eq_spec (freqList counts : List ℚ) (minF maxF : ℚ)
    (hne : counts ≠ []) (hlen : counts.length = freqList.length) :
    select_freq_min freqList counts minF maxF =
      select_freq_min_spec freqList counts minF maxF := by
  unfold select_freq_min select_freq_min_spec
  by_cases hspec : minF ≤ freqList.getD (idxMin counts) 0 ∧
      freqList.getD (idxMin counts) 0 ≤ maxF
  · rw [if_pos hspec]
    by_cases hcode : freqList.getD (idxMin counts) 0 ≤ minF ∨
        maxF ≤ freqList.getD (idxMin counts) 0
    · rw [if_pos hcode]
      exact reselect_at_argmin freqList counts minF maxF hne hlen
        hspec.1 hspec.2
    · rw [if_neg hcode]
  · rw [if_neg hspec]
    rw [if_pos ?_]
    by_contra hcode
    push_neg at hcode
    exact hspec ⟨le_of_lt hcode.1, le_of_lt hcode.2⟩

/-- Shape of a freshly initialized image: `_X`/`_Y` have the configured
resolutions and the grid is rectangular `rows × cols × imageSize`. -/
theorem initialize_image_shape (p : InitParams) (imageSize : Nat)
    (ii : InitImage) (hinit : initialize_image p imageSize = some ii) :
    ii.xs.length = p.resolution.1 ∧ ii.ys.length = p.resolution.2 ∧
    ImageWF ii.pl p.resolution.2 p.resolution.1 imageSize := by
  unfold initialize_image at hinit
  by_cases h1 : p.centerPosition.1 + (p.range.1.2 - p.range.1.1) * (1/2) <
      p.centerPosition.1 - (p.range.1.2 - p.range.1.1) * (1/2)
  · simp only [h1, if_true] at hinit
    exact absurd hinit (by simp)
  · by_cases h2 : p.centerPosition.2 + (p.range.2.2 - p.range.2.1) * (1/2) <
        p.centerPosition.2 - (p.range.2.2 - p.range.2.1) * (1/2)
    · simp only [h1, h2, if_false, if_true] at hinit
      exact absurd hinit (by simp)
    · simp only [h1, h2, if_false] at hinit
      rw [Option.some_inj] at hinit
      subst hinit
      refine ⟨linspace_length .., linspace_length .., ?_, ?_⟩
      · dsimp only
        rw [List.length_map, linspace_length]
      · intro r hr
        dsimp only
        rw [getD_map_of_lt _ _ _ _ 0 (by rw [linspace_length]; exact hr)]
        constructor
        · rw [List.length_map, linspace_length]
        · intro c hc
          rw [getD_map_of_lt _ _ _ _ 0 (by rw [linspace_length]; exact hc)]
          rw [List.length_map, List.length_range]

/-- Every channel index `≥ 2` of a freshly initialized image is `0`. -/
theorem initialize_image_zero (p : InitParams) (imageSize : Nat)
    (ii : InitImage) (hinit : initialize_image p imageSize = some ii)
    (r c ch : Nat) (hch : 2 ≤ ch) : getCh ii.pl r c ch = 0 := by
  obtain ⟨hxs, hys, hwf⟩ := initialize_image_shape p imageSize ii hinit
  by_cases hr : r < p.resolution.2
  · by_cases hc : c < p.resolution.1
    · by_cases hchlt : ch < imageSize
      · rw [initialize_image_getCh p imageSize ii hinit r c ch
          (by omega) (by omega) hchlt]
        rw [if_neg (by omega), if_neg (by omega)]
      · unfold getCh
        rw [List.getD_eq_default _ _
          (by rw [(hwf.2 r hr).2 c hc]; omega)]
    · unfold getCh
      have hrow : (ii.pl.getD r []).getD c ([] : List ℚ) = [] :=
        List.getD_eq_default _ _ (by rw [(hwf.2 r hr).1]; omega)
      rw [hrow]
      rfl
  · unfold getCh
    have hrow : ii.pl.getD r ([] : List (List ℚ)) = [] :=
      List.getD_eq_default _ _ (by rw [hwf.1]; omega)
    rw [hrow]
    rfl

/-- The quenching branch of `treat_data` writes only channels 2, 3 and 4. -/
theorem getCh_treat_data_quenching_lt2 (img : Image)
    (topoCorr : List (List ℚ)) (r c : Nat) (zRange coeff : ℚ)
    (data : List (List ℚ)) (r' c' k : Nat) (hk : k < 2) :
    getCh (treat_data_quenching img topoCorr r c zRange coeff data)
      r' c' k = getCh img r' c' k := by
  simp only [treat_data_quenching, setCh, addCh]
  rw [getCh_updCh_of_ch_ne _ _ _ _ _ _ _ _ (by omega),
    getCh_updCh_of_ch_ne _ _ _ _ _ _ _ _ (by omega),
    getCh_updCh_of_ch_ne _ _ _ _ _ _ _ _ (by omega),
    getCh_updCh_of_ch_ne _ _ _ _ _ _ _ _ (by omega),
    getCh_updCh_of_ch_ne _ _ _ _ _ _ _ _ (by omega),
    getCh_updCh_of_ch_ne _ _ _ _ _ _ _ _ (by omega)]

/-- The iso-B branch of `treat_data` writes only channels 2 to 6. -/
theorem getCh_treat_data_isob_lt2 (img : Image)
    (topoCorr : List (List ℚ)) (r c : Nat) (zRange coeff : ℚ)
    (data : List (List ℚ)) (r' c' k : Nat) (hk : k < 2) :
    getCh (treat_data_isob img topoCorr r c zRange coeff data) r' c' k =
      getCh img r' c' k := by
  simp only [treat_data_isob, setCh, addCh]
  rw [getCh_updCh_of_ch_ne _ _ _ _ _ _ _ _ (by omega),
    getCh_updCh_of_ch_ne _ _ _ _ _ _ _ _ (by omega),
    getCh_updCh_of_ch_ne _ _ _ _ _ _ _ _ (by omega),
    getCh_updCh_of_ch_ne _ _ _ _ _ _ _ _ (by omega),
    getCh_updCh_of_ch_ne _ _ _ _ _ _ _ _ (by omega)]

/-- The fullb branch of `treat_data` writes only channels 2 to 7. -/
theorem getCh_treat_data_fullb_lt2 (img : Image)
    (topoCorr : List (List ℚ)) (r c : Nat) (zRange coeff : ℚ)
    (freqList : List ℚ) (data dataIsob : List (List ℚ)) (r' c' k : Nat)
    (hk : k < 2) :
    getCh (treat_data_fullb_image img topoCorr r c zRange coeff freqList
      data dataIsob) r' c' k = getCh img r' c' k := by
  simp only [treat_data_fullb_image, setCh, addCh]
  rw [getCh_updCh_of_ch_ne _ _ _ _ _ _ _ _ (by omega),
    getCh_updCh_of_ch_ne _ _ _ _ _ _ _ _ (by omega),
    getCh_updCh_of_ch_ne _ _ _ _ _ _ _ _ (by omega),
    getCh_updCh_of_ch_ne _ _ _ _ _ _ _ _ (by omega),
    getCh_updCh_of_ch_ne _ _ _ _ _ _ _ _ (by omega),
    getCh_updCh_of_ch_ne _ _ _ _ _ _ _ _ (by omega)]

/-- The function `correct_topo` writes only channel 2. -/
theorem getCh_correct_topo_ne (img : Image) (topoCorr : List (List ℚ))
    (row col r c k : Nat) (hk : k ≠ 2) :
    getCh (correct_topo img topoCorr row col) r c k = getCh img r c k := by
  have hgouter : ∀ (rr cc : ℕ) (cell : List ℚ),
      (if row + 1 ≤ rr ∨ (row ≤ rr ∧ cc = col) then
        listUpd cell 2 (fun _ => 0) else cell).getD k 0 =
        cell.getD k 0 := by
    intro rr cc cell
    by_cases hcond : row + 1 ≤ rr ∨ (row ≤ rr ∧ cc = col)
    · rw [if_pos hcond]
      exact getD_listUpd_ne _ _ _ _ _ (Ne.symm hk)
    · rw [if_neg hcond]
  have hginner : ∀ (rr cc : ℕ) (cell : List ℚ),
      (listUpd cell 2 fun v =>
        v - (topoCorr.getD rr []).getD cc 0).getD k 0 =
        cell.getD k 0 := fun rr cc cell =>
    getD_listUpd_ne _ _ _ _ _ (Ne.symm hk)
  simp only [correct_topo]
  rw [getCh_cell_transform _ _ _ _ _ hgouter,
    getCh_cell_transform _ _ _ _ _ hginner]

/-- The cursor advance (`_hpix_end` tail) never touches the image. -/
theorem hpix_end_img (s : ScanState) : (hpix_end s).1.img = s.img := by
  unfold hpix_end stop_scanning shift_indices nextHw
  by_cases h1 : s.linePos.1 + s.incr ≥ s.xs.length
  · rw [if_pos h1]
    by_cases h2 : s.linePos.2 + 1 ≥ s.ys.length
    · rw [if_pos h2]
      dsimp only
      by_cases h3 : ({s with linePos := (0, s.linePos.2 + 1)}).locked
      · rw [if_pos h3]
      · rw [if_neg h3]
    · rw [if_neg h2]
      dsimp only
      cases s.hw with
      | nil => rfl
      | cons m rest => rfl
  · rw [if_neg h1]

theorem matDiv_row_length (a : List (List ℚ)) (k : ℚ) (i : Nat) :
    ((matDiv a k).getD i []).length = (a.getD i []).length := by
  unfold matDiv
  by_cases h : i < a.length
  · rw [getD_map_of_lt _ _ _ _ [] h, List.length_map]
  · rw [List.getD_eq_default _ _ (by rw [List.length_map]; omega),
      List.getD_eq_default _ _ (by omega)]

/-! ### Claim theorems -/

/-- C3: for every FullSweep pixel, the dip frequency is used directly when
it lies within `[min_fullb, max_fullb]` and otherwise re-selected among the
in-band sweep samples (the source's boundary-inclusive re-selection agrees
with the closed-interval reading), and the next window is recentered as
`start = freqMin - halfSpan`, `stop = freqMin + halfSpan` with `halfSpan`
half the span of the frequency list just swept, preserving the window
width. -/
theorem claim_C3_theorem (freqList counts : List ℚ) (minF maxF fm : ℚ)
    (hne : counts ≠ []) (hlen : counts.length = freqList.length) :
    select_freq_min freqList counts minF maxF =
      select_freq_min_spec freqList counts minF maxF ∧
    track_window freqList fm =
      (fm - (freqList.getLastD 0 - freqList.headD 0) / 2,
       fm + (freqList.getLastD 0 - freqList.headD 0) / 2) ∧
    (track_window freqList fm).2 - (track_window freqList fm).1 =
      freqList.getLastD 0 - freqList.headD 0 := by
  refine ⟨select_freq_min_eq_spec freqList counts minF maxF hne hlen,
    rfl, ?_⟩
  unfold track_window
  ring

theorem claim_C3_witness :
    select_freq_min [10, 20, 30] [(5 : ℚ), 3, 4] 15 25 =
      select_freq_min_spec [10, 20, 30] [(5 : ℚ), 3, 4] 15 25 ∧
    track_window [10, 20, 30] 20 =
      ((20 : ℚ) - ((30 : ℚ) - 10) / 2, (20 : ℚ) + ((30 : ℚ) - 10) / 2) ∧
    (track_window [10, 20, 30] 20).2 - (track_window [10, 20, 30] 20).1 =
      (30 : ℚ) - 10 :=
  claim_C3_theorem [10, 20, 30] [5, 3, 4] 15 25 20 (by decide) (by decide)

/-- C4: FALSE as claimed — the source compares the signed difference
`resonance_frequency - freq_min` against the threshold, not its absolute
value.  With `resonance_frequency = 2870`, `freq_min = 3070`,
`threshold = 50`, the absolute difference is `200 ≥ 50` so the claim
requires the coarse step, but the code selects the fine step. -/
theorem claim_C4_counterexample :
    step_select 2870 3070 50 1 2 = 1 ∧
    step_select_spec 2870 3070 50 1 2 = 2 ∧
    ¬|(2870 : ℚ) - 3070| < 50 := by
  refine ⟨by unfold step_select; norm_num, ?_, by norm_num⟩
  unfold step_select_spec
  norm_num

/-- C4 (amended): after each FullSweep pixel the fine step `mw_step` is
chosen exactly when the signed difference
`resonance_frequency - freqMin` is below the threshold (no absolute
value), and the coarse step `mw_step_hf` otherwise. -/
theorem claim_C4_theorem (r f t fine coarse : ℚ) (h : fine ≠ coarse) :
    (step_select r f t fine coarse = fine ↔ r - f < t) ∧
    (step_select r f t fine coarse = coarse ↔ ¬r - f < t) := by
  unfold step_select
  by_cases hlt : r - f < t
  · rw [if_pos hlt]
    exact ⟨iff_of_true rfl hlt, iff_of_false h (not_not_intro hlt)⟩
  · rw [if_neg hlt]
    exact ⟨iff_of_false (Ne.symm h) hlt, iff_of_true rfl hlt⟩

theorem claim_C4_witness :
    (step_select 0 0 1 1 2 = 1 ↔ (0 : ℚ) - 0 < 1) ∧
    (step_select 0 0 1 1 2 = 2 ↔ ¬(0 : ℚ) - 0 < 1) :=
  claim_C4_theorem 0 0 1 1 2 (by norm_num)

/-- C5: the scan-duration estimate is the pure value
`1.8 * (forward + retrace)` with `forward = multiplier(mode) * rows * cols
/ clockFrequency` (multiplier 1 / 2 / `2 + frequencyPointCount`) and
`retrace = lineCount * (axisRange / returnSlowness) / clockFrequency`; for
Quenching with clock 10 and resolution (100, 100) the forward term is
1000 seconds. -/
theorem claim_C5_theorem (mode : MeasMode) (scanMode : ScanMode)
    (res0 res1 : ℕ) (clock rs : ℚ) (range : (ℚ × ℚ) × (ℚ × ℚ))
    (lineNumber : ℕ) :
    compute_scan_duration mode scanMode res0 res1 clock rs range
        lineNumber =
      spec_scan_duration mode scanMode res0 res1 clock rs range
        lineNumber ∧
    scan_fwd_time .quenching 100 100 10 lineNumber = 1000 := by
  constructor
  · unfold compute_scan_duration spec_scan_duration scan_fwd_time
      scan_bwd_time spec_duration_multiplier
    cases mode <;> cases scanMode <;> ring
  · unfold scan_fwd_time
    norm_num

/-- C9: with the module unlocked, `set_resolution` stores (and returns)
`(x - x % 2, y - y % 2)`: odd requests are silently decremented so both
stored values are even, even requests are stored unchanged. -/
theorem claim_C9_theorem (s : LogicParams) (x y : ℤ)
    (h : s.locked = false) :
    (set_resolution s x y).1.resolution = (x - x % 2, y - y % 2) ∧
    (set_resolution s x y).2.2 = (x - x % 2, y - y % 2) ∧
    Even (x - x % 2) ∧ Even (y - y % 2) ∧
    (x % 2 = 0 → x - x % 2 = x) ∧ (y % 2 = 0 → y - y % 2 = y) ∧
    (x % 2 = 1 → x - x % 2 = x - 1) ∧ (y % 2 = 1 → y - y % 2 = y - 1) := by
  have hx : (if x % 2 = 1 then x - 1 else x) = x - x % 2 := by
    by_cases hp : x % 2 = 1
    · rw [if_pos hp]; omega
    · rw [if_neg hp]; omega
  have hy : (if y % 2 = 1 then y - 1 else y) = y - y % 2 := by
    by_cases hp : y % 2 = 1
    · rw [if_pos hp]; omega
    · rw [if_neg hp]; omega
  unfold set_resolution
  rw [h]
  simp only [Bool.false_eq_true, if_false, hx, hy]
  refine ⟨by trivial, by trivial, ?_, ?_, by omega, by omega, by omega,
    by omega⟩
  · rw [Int.even_iff]; omega
  · rw [Int.even_iff]; omega

theorem claim_C9_witness :
    (set_resolution ⟨false, 10, ((0, 0), (0, 0)), (100, 100), 1⟩
        7 4).1.resolution = ((7 : ℤ) - 7 % 2, (4 : ℤ) - 4 % 2) ∧
    (set_resolution ⟨false, 10, ((0, 0), (0, 0)), (100, 100), 1⟩
        7 4).2.2 = ((7 : ℤ) - 7 % 2, (4 : ℤ) - 4 % 2) ∧
    Even ((7 : ℤ) - 7 % 2) ∧ Even ((4 : ℤ) - 4 % 2) ∧
    ((7 : ℤ) % 2 = 0 → (7 : ℤ) - 7 % 2 = 7) ∧
    ((4 : ℤ) % 2 = 0 → (4 : ℤ) - 4 % 2 = 4) ∧
    ((7 : ℤ) % 2 = 1 → (7 : ℤ) - 7 % 2 = 7 - 1) ∧
    ((4 : ℤ) % 2 = 1 → (4 : ℤ) - 4 % 2 = 4 - 1) :=
  claim_C9_theorem ⟨false, 10, ((0, 0), (0, 0)), (100, 100), 1⟩ 7 4 rfl

/-- C10: while the module is locked, `set_range`, `set_resolution`,
`set_return_slowness` and `set_clock_frequency` leave the stored
parameters unchanged, emit no notification, and return the pre-existing
value. -/
theorem claim_C10_theorem (s : LogicParams) (tc : ℚ)
    (q : ℚ × ℚ × ℚ × ℚ) (x y : ℤ) (rs : ℚ) (h : s.locked = true) :
    set_clock_frequency s tc = (s, [], s.clock_frequency) ∧
    set_range s q = (s, [], s.range) ∧
    set_resolution s x y = (s, [], s.resolution) ∧
    set_return_slowness s rs = (s, [], s.return_slowness) := by
  unfold set_clock_frequency set_range set_resolution set_return_slowness
  rw [h]
  simp only [if_true]
  refine ⟨?_, ?_, ?_, ?_⟩ <;> trivial

theorem claim_C10_witness :
    set_clock_frequency ⟨true, 10, ((0, 1), (0, 1)), (100, 100), 1⟩ 5 =
      (⟨true, 10, ((0, 1), (0, 1)), (100, 100), 1⟩, [], 10) ∧
    set_range ⟨true, 10, ((0, 1), (0, 1)), (100, 100), 1⟩ (2, 3, 4, 5) =
      (⟨true, 10, ((0, 1), (0, 1)), (100, 100), 1⟩, [], ((0, 1), (0, 1))) ∧
    set_resolution ⟨true, 10, ((0, 1), (0, 1)), (100, 100), 1⟩ 7 9 =
      (⟨true, 10, ((0, 1), (0, 1)), (100, 100), 1⟩, [], (100, 100)) ∧
    set_return_slowness ⟨true, 10, ((0, 1), (0, 1)), (100, 100), 1⟩ 2 =
      (⟨true, 10, ((0, 1), (0, 1)), (100, 100), 1⟩, [], 1) :=
  claim_C10_theorem ⟨true, 10, ((0, 1), (0, 1)), (100, 100), 1⟩ 5
    (2, 3, 4, 5) 7 9 2 rfl

/-- C6: the per-pixel channel count is exactly 5 / 7 / 8 for Quenching /
IsoB / FullSweep; setting a mode reallocates the scan image as a
`rows × cols × channels` grid with that channel count whose data channels
(index ≥ 2) are all zero, and sets the cursor increment to 2 for Quenching
and 1 otherwise. -/
theorem claim_C6_theorem (p : InitParams) :
    ((set_meas_mode .quenching p).imageSize = 5 ∧
     (set_meas_mode .isob p).imageSize = 7 ∧
     (set_meas_mode .fullb p).imageSize = 8) ∧
    ((set_meas_mode .quenching p).incr = 2 ∧
     (set_meas_mode .isob p).incr = 1 ∧
     (set_meas_mode .fullb p).incr = 1) ∧
    ∀ (mode : MeasMode) (ii : InitImage),
      (set_meas_mode mode p).init = some ii →
      ImageWF ii.pl p.resolution.2 p.resolution.1
        (set_meas_mode mode p).imageSize ∧
      ∀ r c ch, 2 ≤ ch → getCh ii.pl r c ch = 0 := by
  refine ⟨⟨rfl, rfl, rfl⟩, ⟨rfl, rfl, rfl⟩, ?_⟩
  intro mode ii hinit
  exact ⟨(initialize_image_shape p _ ii hinit).2.2,
    fun r c ch hch => initialize_image_zero p _ ii hinit r c ch hch⟩

theorem claim_C6_witness :
    (set_meas_mode .isob ⟨((0, 0), (0, 0)), (0, 0), (1, 1)⟩).init =
      some ⟨[[[0, 0, 0, 0, 0, 0, 0]]], [0], [0]⟩ ∧
    ImageWF ([[[0, 0, 0, 0, 0, 0, 0]]] : Image) 1 1 7 ∧
    (∀ r c ch, 2 ≤ ch →
      getCh ([[[0, 0, 0, 0, 0, 0, 0]]] : Image) r c ch = 0) := by
  have hinit : (set_meas_mode .isob
      ⟨((0, 0), (0, 0)), (0, 0), (1, 1)⟩).init =
      some ⟨[[[0, 0, 0, 0, 0, 0, 0]]], [0], [0]⟩ := by
    have h7 : List.range 7 = [0, 1, 2, 3, 4, 5, 6] := rfl
    have h1 : List.range 1 = [0] := rfl
    simp only [set_meas_mode, image_size_of, initialize_image, linspace,
      h7, h1]
    norm_num
  exact ⟨hinit,
    (claim_C6_theorem ⟨((0, 0), (0, 0)), (0, 0), (1, 1)⟩).2.2 .isob
      ⟨[[[0, 0, 0, 0, 0, 0, 0]]], [0], [0]⟩ hinit⟩

/-- C7: for every iso-B pixel, the stored `PLdiff` channel (3) equals
`counts(freq1) - counts(freq2)`, channels 4 and 5 store the two
per-frequency counts, the raw-topography channel (6) is computed from the
arithmetic mean of the per-frequency topography samples, and the corrected
topography (2) accumulates the same mean-based value minus the plane
correction. -/
theorem claim_C7_theorem (img : Image) (topoCorr : List (List ℚ))
    (rows cols chans r c : Nat) (zRange coeff : ℚ)
    (data : List (List ℚ)) (hwf : ImageWF img rows cols chans)
    (hr : r < rows) (hc : c < cols) (hch : 7 ≤ chans) :
    getCh (treat_data_isob img topoCorr r c zRange coeff data) r c 3 =
      (data.getD 0 []).getD 0 0 - (data.getD 0 []).getD 1 0 ∧
    getCh (treat_data_isob img topoCorr r c zRange coeff data) r c 4 =
      (data.getD 0 []).getD 0 0 ∧
    getCh (treat_data_isob img topoCorr r c zRange coeff data) r c 5 =
      (data.getD 0 []).getD 1 0 ∧
    getCh (treat_data_isob img topoCorr r c zRange coeff data) r c 6 =
      zRange - coeff * listMean (data.getD 1 []) ∧
    getCh (treat_data_isob img topoCorr r c zRange coeff data) r c 2 =
      getCh img r c 2 + (zRange - coeff * listMean (data.getD 1 []) -
        (topoCorr.getD r []).getD c 0) := by
  simp only [treat_data_isob, setCh, addCh]
  refine ⟨?_, ?_, ?_, ?_, ?_⟩
  · rw [getCh_updCh_of_ch_ne _ _ _ _ _ _ _ _ (by omega),
      getCh_updCh_of_ch_ne _ _ _ _ _ _ _ _ (by omega),
      getCh_updCh_wf _ rows cols chans r c 3 _
        (imageWF_updCh _ _ _ _ _ _ _ _
          (imageWF_updCh _ _ _ _ _ _ _ _ hwf)) hr hc (by omega)]
  · rw [getCh_updCh_of_ch_ne _ _ _ _ _ _ _ _ (by omega),
      getCh_updCh_wf _ rows cols chans r c 4 _
        (imageWF_updCh _ _ _ _ _ _ _ _ (imageWF_updCh _ _ _ _ _ _ _ _
          (imageWF_updCh _ _ _ _ _ _ _ _ hwf))) hr hc (by omega)]
  · rw [getCh_updCh_wf _ rows cols chans r c 5 _
      (imageWF_updCh _ _ _ _ _ _ _ _ (imageWF_updCh _ _ _ _ _ _ _ _
        (imageWF_updCh _ _ _ _ _ _ _ _
          (imageWF_updCh _ _ _ _ _ _ _ _ hwf)))) hr hc (by omega)]
  · rw [getCh_updCh_of_ch_ne _ _ _ _ _ _ _ _ (by omega),
      getCh_updCh_of_ch_ne _ _ _ _ _ _ _ _ (by omega),
      getCh_updCh_of_ch_ne _ _ _ _ _ _ _ _ (by omega),
      getCh_updCh_of_ch_ne _ _ _ _ _ _ _ _ (by omega),
      getCh_updCh_wf _ rows cols chans r c 6 _ hwf hr hc (by omega)]
  · rw [getCh_updCh_of_ch_ne _ _ _ _ _ _ _ _ (by omega),
      getCh_updCh_of_ch_ne _ _ _ _ _ _ _ _ (by omega),
      getCh_updCh_of_ch_ne _ _ _ _ _ _ _ _ (by omega),
      getCh_updCh_wf _ rows cols chans r c 2 _
        (imageWF_updCh _ _ _ _ _ _ _ _ hwf) hr hc (by omega),
      getCh_updCh_of_ch_ne _ _ _ _ _ _ _ _ (by omega)]

theorem claim_C7_witness :
    getCh (treat_data_isob [[[0, 0, 0, 0, 0, 0, 0]]] [[0]] 0 0 2 1
        [[4, 1], [6, 8]]) 0 0 3 =
      ([(4 : ℚ), 1].getD 0 0 - [(4 : ℚ), 1].getD 1 0) ∧
    getCh (treat_data_isob [[[0, 0, 0, 0, 0, 0, 0]]] [[0]] 0 0 2 1
        [[4, 1], [6, 8]]) 0 0 4 = [(4 : ℚ), 1].getD 0 0 ∧
    getCh (treat_data_isob [[[0, 0, 0, 0, 0, 0, 0]]] [[0]] 0 0 2 1
        [[4, 1], [6, 8]]) 0 0 5 = [(4 : ℚ), 1].getD 1 0 ∧
    getCh (treat_data_isob [[[0, 0, 0, 0, 0, 0, 0]]] [[0]] 0 0 2 1
        [[4, 1], [6, 8]]) 0 0 6 = 2 - 1 * listMean [(6 : ℚ), 8] ∧
    getCh (treat_data_isob [[[0, 0, 0, 0, 0, 0, 0]]] [[0]] 0 0 2 1
        [[4, 1], [6, 8]]) 0 0 2 =
      getCh [[[0, 0, 0, 0, 0, 0, 0]]] 0 0 2 +
        (2 - 1 * listMean [(6 : ℚ), 8] - ([[(0 : ℚ)]].getD 0 []).getD 0 0) :=
  claim_C7_theorem [[[0, 0, 0, 0, 0, 0, 0]]] [[0]] 1 1 7 0 0 2 1
    [[4, 1], [6, 8]]
    ⟨rfl, by
      intro r hr
      interval_cases r
      exact ⟨rfl, by intro c hc; interval_cases c; rfl⟩⟩
    (by omega) (by omega) (by omega)

/-- C8: channels 0 and 1 (x and y position) are populated at image
initialization from the configured range and resolution, and no scan-loop
operation — pixel storage in any of the three modes, topography
correction, or the cursor advance — ever writes channel 0 or 1 of any
cell. -/
theorem claim_C8_theorem :
    (∀ (p : InitParams) (sz : ℕ) (ii : InitImage),
      initialize_image p sz = some ii → 2 ≤ sz →
      ∀ r c, r < p.resolution.2 → c < p.resolution.1 →
        getCh ii.pl r c 0 = ii.xs.getD c 0 ∧
        getCh ii.pl r c 1 = ii.ys.getD r 0) ∧
    (∀ img topoCorr r c zRange coeff data r' c' k, k < 2 →
      getCh (treat_data_quenching img topoCorr r c zRange coeff data)
        r' c' k = getCh img r' c' k) ∧
    (∀ img topoCorr r c zRange coeff data r' c' k, k < 2 →
      getCh (treat_data_isob img topoCorr r c zRange coeff data)
        r' c' k = getCh img r' c' k) ∧
    (∀ img topoCorr r c zRange coeff freqList data dataIsob r' c' k,
      k < 2 →
      getCh (treat_data_fullb_image img topoCorr r c zRange coeff
        freqList data dataIsob) r' c' k = getCh img r' c' k) ∧
    (∀ img topoCorr row col r c k, k < 2 →
      getCh (correct_topo img topoCorr row col) r c k =
        getCh img r c k) ∧
    (∀ s : ScanState, (hpix_end s).1.img = s.img) := by
  refine ⟨?_, ?_, ?_, ?_, ?_, hpix_end_img⟩
  · intro p sz ii hinit hsz r c hr hc
    obtain ⟨hxs, hys, _⟩ := initialize_image_shape p sz ii hinit
    constructor
    · rw [initialize_image_getCh p sz ii hinit r c 0 (by omega) (by omega)
        (by omega)]
      rfl
    · rw [initialize_image_getCh p sz ii hinit r c 1 (by omega) (by omega)
        (by omega)]
      rfl
  · intro img topoCorr r c zRange coeff data r' c' k hk
    exact getCh_treat_data_quenching_lt2 img topoCorr r c zRange coeff
      data r' c' k hk
  · intro img topoCorr r c zRange coeff data r' c' k hk
    exact getCh_treat_data_isob_lt2 img topoCorr r c zRange coeff data
      r' c' k hk
  · intro img topoCorr r c zRange coeff freqList data dataIsob r' c' k hk
    exact getCh_treat_data_fullb_lt2 img topoCorr r c zRange coeff
      freqList data dataIsob r' c' k hk
  · intro img topoCorr row col r c k hk
    exact getCh_correct_topo_ne img topoCorr row col r c k (by omega)

theorem claim_C8_witness :
    (getCh ([[[0, 0, 0, 0, 0]]] : Image) 0 0 0 = [(0 : ℚ)].getD 0 0 ∧
     getCh ([[[0, 0, 0, 0, 0]]] : Image) 0 0 1 = [(0 : ℚ)].getD 0 0) ∧
    getCh (treat_data_quenching [[[0, 0, 0, 0, 0]]] [[0]] 0 0 2 1
      [[3, 4], [5, 6]]) 0 0 0 = getCh [[[0, 0, 0, 0, 0]]] 0 0 0 ∧
    getCh (treat_data_isob [[[0, 0, 0, 0, 0]]] [[0]] 0 0 2 1
      [[3, 4], [5, 6]]) 0 0 1 = getCh [[[0, 0, 0, 0, 0]]] 0 0 1 ∧
    getCh (treat_data_fullb_image [[[0, 0, 0, 0, 0]]] [[0]] 0 0 2 1
      [10, 20] [[3, 4], [5, 6]] [[7, 8]]) 0 0 0 =
      getCh [[[0, 0, 0, 0, 0]]] 0 0 0 ∧
    getCh (correct_topo [[[0, 0, 0, 0, 0]]] [[9]] 0 0) 0 0 1 =
      getCh [[[0, 0, 0, 0, 0]]] 0 0 1 ∧
    (hpix_end base_state).1.img = base_state.img :=
  ⟨claim_C8_theorem.1 ⟨((0, 0), (0, 0)), (0, 0), (1, 1)⟩ 5
      ⟨[[[0, 0, 0, 0, 0]]], [0], [0]⟩ (by
        have h5 : List.range 5 = [0, 1, 2, 3, 4] := rfl
        have h1 : List.range 1 = [0] := rfl
        simp only [initialize_image, linspace, h5, h1]
        norm_num) (by omega) 0 0 (by decide) (by decide),
   claim_C8_theorem.2.1 [[[0, 0, 0, 0, 0]]] [[0]] 0 0 2 1
     [[3, 4], [5, 6]] 0 0 0 (by omega),
   claim_C8_theorem.2.2.1 [[[0, 0, 0, 0, 0]]] [[0]] 0 0 2 1
     [[3, 4], [5, 6]] 0 0 1 (by omega),
   claim_C8_theorem.2.2.2.1 [[[0, 0, 0, 0, 0]]] [[0]] 0 0 2 1 [10, 20]
     [[3, 4], [5, 6]] [[7, 8]] 0 0 0 (by omega),
   claim_C8_theorem.2.2.2.2.1 [[[0, 0, 0, 0, 0]]] [[9]] 0 0 0 0 1
     (by omega),
   claim_C8_theorem.2.2.2.2.2 base_state⟩

/-- C1: FALSE as claimed — in Quenching mode the `-1` sentinel returned by
`scan_line` at sample `[0, 0]` while acquiring pixel `(0, 0)` of a 2×2
scan is never checked: the sentinel value itself is stored into channel 3
(PL) of pixel `(0, 0)` (and its pair neighbour), and the scan runs to
normal completion — the oracle is fully consumed and the module ends
unlocked through the ordinary end-of-scan path, not a fault stop. -/
theorem claim_C1_counterexample :
    getCh c1_final.img 0 0 3 = -1 ∧ getCh c1_final.img 0 1 3 = 3 ∧
    c1_final.locked = false ∧ c1_final.stopRequested = false ∧
    c1_final.hw = [] :=
  ⟨rfl, rfl, rfl, rfl, rfl⟩

/-- C1 (amended): only the ODMR acquisitions (IsoB/FullSweep,
`scan_odmr_line`) check the `-1` sentinel at sample `[0, 0]`.  There the
controller sets `stopRequested` and abandons the pixel with no retry — no
channel of pixel `(r, c)` is written, every earlier pixel keeps its
stored values (the image is unchanged), and exactly one acquisition is
consumed — but it does not transition to Idle: the aborted worker never
schedules another step, so the module stays locked.  In Quenching mode
the sentinel from `scan_line` is not checked at all: the raw values,
sentinel included, are stored for pixel `(r, c)` and the scan
continues. -/
theorem claim_C1_theorem
    (s : ScanState) (m : List (List ℚ)) (rest : List (List (List ℚ)))
    (hmode : s.measMode = .isob) (hstop : s.stopRequested = false)
    (hpos : s.linePos ≠ (0, 0)) (hsweeps : s.numberSweeps = 1)
    (hhw : s.hw = m :: rest) (hm : (m.getD 0 []).getD 0 0 = -1)
    (u : ScanState) (w : List (List ℚ)) (wrest : List (List (List ℚ)))
    (humode : u.measMode = .fullb) (hustop : u.stopRequested = false)
    (hupos : u.linePos ≠ (0, 0)) (husweeps : u.numberSweeps = 1)
    (huhw : u.hw = w :: wrest) (hw0 : (w.getD 0 []).getD 0 0 = -1)
    (t : ScanState) (q : List (List ℚ)) (qrest : List (List (List ℚ)))
    (htmode : t.measMode = .quenching) (htstop : t.stopRequested = false)
    (htpos : t.linePos ≠ (0, 0)) (hthw : t.hw = q :: qrest)
    (htincr : t.linePos.1 + t.incr < t.xs.length) :
    ((scan_line_step s).1.img = s.img ∧
     (scan_line_step s).1.locked = s.locked ∧
     (scan_line_step s).1.stopRequested = true ∧
     (scan_line_step s).1.hw = rest ∧
     (scan_line_step s).2 = 0) ∧
    ((scan_line_step u).1.img = u.img ∧
     (scan_line_step u).1.locked = u.locked ∧
     (scan_line_step u).1.stopRequested = true ∧
     (scan_line_step u).1.hw = wrest ∧
     (scan_line_step u).2 = 0) ∧
    ((scan_line_step t).1.img =
       treat_data_quenching t.img t.topoCorr t.linePos.2 t.linePos.1
         t.zRange t.coeffTopo q ∧
     (scan_line_step t).1.stopRequested = false ∧
     (scan_line_step t).1.locked = t.locked ∧
     (scan_line_step t).2 = 1) := by
  have hd0 : ¬((0 : ℤ) < 0) := by omega
  refine ⟨?_, ?_, ?_⟩
  · simp only [scan_line_step, reset_position, move_hpix, scan_pixel,
      scan_odmr_line, add_sweeps, nextHw, hmode, hstop, hpos, hsweeps,
      hhw, hm, hd0, Bool.false_eq_true, if_false, if_true, ite_false,
      ite_true, Nat.sub_self]
    simp
  · simp only [scan_line_step, reset_position, move_hpix, scan_pixel,
      scan_odmr_line, add_sweeps, nextHw, humode, hustop, hupos,
      husweeps, huhw, hw0, hd0, Bool.false_eq_true, if_false, if_true,
      ite_false, ite_true, Nat.sub_self]
    simp
  · have hnot : ¬(t.xs.length ≤ t.linePos.1 + t.incr) := by omega
    simp only [scan_line_step, reset_position, move_hpix, scan_pixel,
      treat_data_step, hpix_end, nextHw, htmode, htstop, htpos, hthw,
      hnot, hd0, ge_iff_le, Bool.false_eq_true, if_false, if_true,
      ite_false, ite_true]
    simp

theorem claim_C1_witness :
    ((scan_line_step c1a_state).1.img = c1a_state.img ∧
     (scan_line_step c1a_state).1.locked = c1a_state.locked ∧
     (scan_line_step c1a_state).1.stopRequested = true ∧
     (scan_line_step c1a_state).1.hw = [] ∧
     (scan_line_step c1a_state).2 = 0) ∧
    ((scan_line_step c1c_state).1.img = c1c_state.img ∧
     (scan_line_step c1c_state).1.locked = c1c_state.locked ∧
     (scan_line_step c1c_state).1.stopRequested = true ∧
     (scan_line_step c1c_state).1.hw = [] ∧
     (scan_line_step c1c_state).2 = 0) ∧
    ((scan_line_step c1b_state).1.img =
       treat_data_quenching c1b_state.img c1b_state.topoCorr
         c1b_state.linePos.2 c1b_state.linePos.1 c1b_state.zRange
         c1b_state.coeffTopo [[-1, 6], [7, 8]] ∧
     (scan_line_step c1b_state).1.stopRequested = false ∧
     (scan_line_step c1b_state).1.locked = c1b_state.locked ∧
     (scan_line_step c1b_state).2 = 1) :=
  claim_C1_theorem c1a_state [[-1]] [] (by decide) (by decide) (by decide)
    (by decide) (by decide) (by decide) c1c_state [[-1]] [] (by decide)
    (by decide) (by decide) (by decide) (by decide) (by decide)
    c1b_state [[-1, 6], [7, 8]] [] (by decide) (by decide) (by decide)
    (by decide) (by decide)

/-- C2: the FullSweep retry-once-on-size-mismatch is broken in the code.
When the sweep returns a 2-column matrix the retry path calls
`set_sweep_parameters_fullb` with 7 positional arguments though its
definition takes 8, so Python raises `TypeError` and the worker dies: no
retry acquisition is issued (exactly one oracle entry is consumed), no
pixel data is written, and no fault flag is raised.  Any other returned
size that mismatches the expected window is not detected at all: the
pixel proceeds normally with the mismatched data. -/
theorem claim_C2_theorem
    (s : ScanState) (m : List (List ℚ)) (rest : List (List (List ℚ)))
    (hmode : s.measMode = .fullb) (hsweeps : s.numberSweeps = 1)
    (hhw : s.hw = m :: rest) (hm0 : ¬(m.getD 0 []).getD 0 0 = -1)
    (hm2 : (m.getD 0 []).length = 2)
    (n : ScanState) (q qi : List (List ℚ)) (qrest : List (List (List ℚ)))
    (hnmode : n.measMode = .fullb) (hnsweeps : n.numberSweeps = 1)
    (hnhw : n.hw = q :: qi :: qrest)
    (hq0 : ¬(q.getD 0 []).getD 0 0 = -1)
    (hq2 : ¬(q.getD 0 []).length = 2)
    (hqi0 : ¬(qi.getD 0 []).getD 0 0 = -1) :
    ((scan_pixel s).1 = .crashed ∧ (scan_pixel s).2.hw = rest ∧
     (scan_pixel s).2.img = s.img ∧
     (scan_pixel s).2.stopRequested = s.stopRequested) ∧
    ((scan_pixel n).1 = .ok (matDiv q 1) (matDiv qi 1) ∧
     (scan_pixel n).2.hw = qrest ∧ (scan_pixel n).2.img = n.img) := by
  constructor
  · have hlen : ((matDiv m ((1 : ℕ) : ℚ)).getD 0 []).length = 2 := by
      rw [matDiv_row_length]; exact hm2
    simp only [scan_pixel, scan_odmr_line, add_sweeps, nextHw, hmode,
      hsweeps, hhw, hm0, hlen, Nat.sub_self, Bool.false_eq_true,
      if_false, if_true, ite_false, ite_true]
    simp
  · have hlen : ¬((matDiv q ((1 : ℕ) : ℚ)).getD 0 []).length = 2 := by
      rw [matDiv_row_length]; exact hq2
    simp only [scan_pixel, scan_odmr_line, add_sweeps, nextHw, hnmode,
      hnsweeps, hnhw, hq0, hqi0, hlen, Nat.sub_self, Bool.false_eq_true,
      if_false, if_true, ite_false, ite_true]
    simp

theorem claim_C2_witness :
    ((scan_pixel c2a_state).1 = .crashed ∧
     (scan_pixel c2a_state).2.hw = [] ∧
     (scan_pixel c2a_state).2.img = c2a_state.img ∧
     (scan_pixel c2a_state).2.stopRequested =
       c2a_state.stopRequested) ∧
    ((scan_pixel c2b_state).1 =
       .ok (matDiv [[4, 5, 6], [7, 8, 9]] 1) (matDiv [[1, 2], [3, 4]] 1) ∧
     (scan_pixel c2b_state).2.hw = [] ∧
     (scan_pixel c2b_state).2.img = c2b_state.img) :=
  claim_C2_theorem c2a_state [[4, 5], [6, 7]] [] (by decide) (by decide)
    (by decide) (by decide) (by decide) c2b_state [[4, 5, 6], [7, 8, 9]]
    [[1, 2], [3, 4]] [] (by decide) (by decide) (by decide) (by decide)
    (by decide) (by decide)

end Magnetometry
